import Mathlib

/-!
Shallow embedding of the direct-workflow controller
(`src/mistral/workflow/direct_workflow.py`) of the Mistral workflow engine,
together with the external collaborators it consults (`states`,
`wf_utils`, the expression evaluator and the data-flow resolver), which are
modelled from the specification where their code is not part of the
repository snapshot.
-/

namespace Mistral

/-- Task execution states (`mistral.workflow.states`).
Modelled from the spec: the states module is not under `src/`; the spec lists
RUNNING, SUCCESS, ERROR, WAITING, PAUSED as the relevant states and defines
`is_completed(state) ⟺ state ∈ {SUCCESS, ERROR}`. -/
inductive TaskState where
  | RUNNING
  | SUCCESS
  | ERROR
  | WAITING
  | PAUSED
  | IDLE
  deriving DecidableEq, Repr

open TaskState

/-- Modelled from the spec: `states.is_completed` — terminal iff SUCCESS or
ERROR; WAITING/RUNNING/PAUSED/IDLE are non-terminal. -/
def is_completed (s : TaskState) : Bool :=
  s == SUCCESS || s == ERROR

/-- Evaluation contexts are opaque variable bindings; the controller only
passes them through to the (external) expression evaluator. -/
def Ctx := List (String × String)

/-- Parameter templates, resolved by the external evaluator. -/
def Params := List (String × String)
deriving instance DecidableEq for Params

/-- One entry of an on-success / on-error / on-complete transition clause:
(target task name, optional condition expression, parameter template). -/
structure ClauseEntry where
  target : String
  cond : Option String
  params : Params
  deriving DecidableEq

/-- Join requirement value as it appears in a task spec: a Python `int`, the
string `"one"`, the string `"all"`, or any other (unexpected) value,
modelled as an arbitrary string. -/
inductive JoinVal where
  | int (n : Int)
  | one
  | all
  | other (s : String)
  deriving DecidableEq, Repr

/-- Python truthiness of `task_spec.get_join()`: `None` and the integer 0 are
falsy (so `join: 0` behaves as a non-join task), non-empty strings truthy. -/
def joinTruthy : Option JoinVal → Bool
  | none => false
  | some (.int n) => n != 0
  | some .one => true
  | some .all => true
  | some (.other s) => s != ""

/-- Static task specification: name, join requirement, transition clauses. -/
structure TaskSpec where
  name : String
  join : Option JoinVal
  on_complete : List ClauseEntry
  on_success : List ClauseEntry
  on_error : List ClauseEntry
  deriving DecidableEq

/-- `task_spec.get_join()` (truthiness applies at the call sites). -/
def TaskSpec.get_join (t : TaskSpec) : Option JoinVal := t.join

def TaskSpec.get_name (t : TaskSpec) : String := t.name

/-- A runtime task execution snapshot. `state_info` is free diagnostic text. -/
structure TaskEx where
  name : String
  state : TaskState
  state_info : Option String
  processed : Bool
  deriving DecidableEq

/-- A workflow execution snapshot: identity plus its task executions, in
lookup order. -/
structure WfEx where
  id : String
  task_executions : List TaskEx
  deriving DecidableEq

/-- Static workflow specification: the list of task specs (names unique). -/
structure WfSpec where
  tasks : List TaskSpec
  deriving DecidableEq

/-- `wf_spec.get_tasks()[name]`: name lookup returning `None` when absent. -/
def WfSpec.get_task (w : WfSpec) (name : String) : Option TaskSpec :=
  w.tasks.find? (fun t => t.name == name)

/-- All target names mentioned in any of a spec's three transition clauses. -/
def TaskSpec.mentioned_targets (t : TaskSpec) : List String :=
  (t.on_complete ++ t.on_success ++ t.on_error).map (·.target)

/-- Modelled from the spec: `wf_spec.find_inbound_task_specs(task_spec)` —
the direct predecessors of a spec in the DAG, i.e. every spec one of whose
transition clauses names it as a target. -/
def WfSpec.find_inbound_task_specs (w : WfSpec) (t : TaskSpec) : List TaskSpec :=
  w.tasks.filter (fun s => t.name ∈ s.mentioned_targets)

/-- Modelled from the spec: `wf_spec.find_start_tasks()` — the specs with no
inbound edges. -/
def WfSpec.find_start_tasks (w : WfSpec) : List TaskSpec :=
  w.tasks.filter (fun t => (w.find_inbound_task_specs t).isEmpty)

/-- `wf_spec.get_on_complete_clause(name)` (empty when the task is unknown or
has no clause). -/
def WfSpec.get_on_complete_clause (w : WfSpec) (name : String) : List ClauseEntry :=
  match w.get_task name with
  | some t => t.on_complete
  | none => []

/-- `wf_spec.get_on_success_clause(name)`. -/
def WfSpec.get_on_success_clause (w : WfSpec) (name : String) : List ClauseEntry :=
  match w.get_task name with
  | some t => t.on_success
  | none => []

/-- `wf_spec.get_on_error_clause(name)`. -/
def WfSpec.get_on_error_clause (w : WfSpec) (name : String) : List ClauseEntry :=
  match w.get_task name with
  | some t => t.on_error
  | none => []

/-- External collaborators: the expression evaluator (`expr.evaluate`,
`expr.evaluate_recursively`) and the data-flow resolver
(`data_flow.evaluate_task_outbound_context`,
`get_task_inbound_context`), assumed side-effect-free functions of their
arguments. -/
structure Env where
  evaluate : String → Ctx → Bool
  evaluate_recursively : Params → Ctx → Params
  outbound_context : TaskEx → Ctx
  inbound_context : TaskSpec → Ctx

/-- Modelled from the spec: `wf_utils.find_task_executions_by_spec` — the
task executions of a workflow execution whose name matches the spec's name,
in lookup order (several may exist for repeated/looped tasks). -/
def find_task_executions_by_spec (wf_ex : WfEx) (t : TaskSpec) : List TaskEx :=
  wf_ex.task_executions.filter (fun e => e.name == t.name)

/-- `_find_task_execution_by_spec`: the LAST matching execution
(`in_t_execs[-1]`), or `None` when there is none. -/
def find_task_execution_by_spec (wf_ex : WfEx) (t : TaskSpec) : Option TaskEx :=
  (find_task_executions_by_spec wf_ex t).getLast?

/-- Modelled from the spec: `wf_utils.find_error_task_executions` — the task
executions currently in ERROR state. -/
def find_error_task_executions (wf_ex : WfEx) : List TaskEx :=
  wf_ex.task_executions.filter (fun e => e.state == ERROR)

/-- `_find_next_tasks_for_clause(clause, ctx)`: the (target, evaluated
params) pairs of the clause entries whose condition is absent or evaluates
truthy. -/
def find_next_tasks_for_clause (env : Env) (clause : List ClauseEntry)
    (ctx : Ctx) : List (String × Params) :=
  (clause.filter (fun e =>
      match e.cond with
      | none => true
      | some c => env.evaluate c ctx)).map
    (fun e => (e.target, env.evaluate_recursively e.params ctx))

/-- `_find_next_tasks(task_ex)`: on-complete matches when the state is
completed, then additionally on-error matches when it is ERROR, or
on-success matches when it is SUCCESS. -/
def find_next_tasks (env : Env) (wfs : WfSpec) (task_ex : TaskEx) :
    List (String × Params) :=
  let ctx := env.outbound_context task_ex
  (if is_completed task_ex.state then
    find_next_tasks_for_clause env (wfs.get_on_complete_clause task_ex.name) ctx
  else []) ++
  (if task_ex.state == ERROR then
    find_next_tasks_for_clause env (wfs.get_on_error_clause task_ex.name) ctx
  else if task_ex.state == SUCCESS then
    find_next_tasks_for_clause env (wfs.get_on_success_clause task_ex.name) ctx
  else [])

/-- `_find_next_task_names(task_ex)`. -/
def find_next_task_names (env : Env) (wfs : WfSpec) (task_ex : TaskEx) :
    List String :=
  (find_next_tasks env wfs task_ex).map Prod.fst

/-- `_possible_route(task_spec)`: recursive reachability. A spec with no
inbound edges is reachable; otherwise it is reachable iff some inbound
predecessor either has no execution yet and is itself reachable, or has an
execution that is not completed or whose resolved next-task names include
the descendant's name. The Python recursion terminates because the DAG is
acyclic; the embedding makes the recursion depth explicit as `fuel`. -/
def possible_route (env : Env) (wfs : WfSpec) (wf_ex : WfEx) :
    Nat → TaskSpec → Bool
  | 0, _ => false
  | fuel + 1, task_spec =>
    let in_task_specs := wfs.find_inbound_task_specs task_spec
    if in_task_specs.isEmpty then
      true
    else
      in_task_specs.any (fun t_s =>
        match find_task_execution_by_spec wf_ex t_s with
        | none => possible_route env wfs wf_ex fuel t_s
        | some t_ex =>
          !is_completed t_ex.state ||
            task_spec.name ∈ find_next_task_names env wfs t_ex)

/-- `_get_induced_join_state(inbound_task_spec, join_task_spec)`: the state
an inbound predecessor contributes toward the join's quorum. -/
def get_induced_join_state (env : Env) (wfs : WfSpec) (wf_ex : WfEx)
    (fuel : Nat) (inbound_task_spec join_task_spec : TaskSpec) : TaskState :=
  match find_task_execution_by_spec wf_ex inbound_task_spec with
  | none =>
    if possible_route env wfs wf_ex fuel inbound_task_spec then WAITING
    else ERROR
  | some in_task_ex =>
    if !is_completed in_task_ex.state then WAITING
    else if join_task_spec.name ∉ find_next_task_names env wfs in_task_ex then
      ERROR
    else RUNNING

/-- `state_info` produced by join logical-state computation: either the
blocked message naming the WAITING predecessors, or the failed message
naming the ERROR predecessors (each rendered in Python as a fixed format
string determined by the listed names). -/
inductive JoinInfo where
  | blocked (names : List String)
  | failed (names : List String)
  deriving DecidableEq, Repr

/-- The list of `(task_name, induced state)` pairs computed in
`_get_join_logical_state` over the join's inbound predecessors. -/
def induced_join_states (env : Env) (wfs : WfSpec) (wf_ex : WfEx)
    (fuel : Nat) (task_spec : TaskSpec) : List (String × TaskState) :=
  (wfs.find_inbound_task_specs task_spec).map (fun t_s =>
    (t_s.get_name, get_induced_join_state env wfs wf_ex fuel t_s task_spec))

/-- The local `count(state)` helper of `_get_join_logical_state`. -/
def state_count (l : List (String × TaskState)) (state : TaskState) : Nat :=
  (l.filter (fun s => s.2 == state)).length

/-- The names selected by `_blocked_message` / `_failed_message`: those of the
pairs in the given induced state. -/
def names_in_state (l : List (String × TaskState)) (state : TaskState) :
    List String :=
  (l.filter (fun s => s.2 == state)).map (·.1)

/-- The `Count(n)` / `Any` quorum branch of `_get_join_logical_state`. -/
def join_quorum_state (induced_states : List (String × TaskState))
    (cardinality : Int) : Except String (TaskState × Option JoinInfo) :=
  let error_count := state_count induced_states ERROR
  let running_count := state_count induced_states RUNNING
  let total_count := induced_states.length
  if (running_count : Int) ≥ cardinality then
    Except.ok (RUNNING, none)
  else if (error_count : Int) > (total_count : Int) - cardinality then
    Except.ok (ERROR, some (JoinInfo.failed (names_in_state induced_states ERROR)))
  else
    Except.ok (WAITING, some (JoinInfo.blocked (names_in_state induced_states WAITING)))

/-- `_get_join_logical_state(task_spec)`: quorum accounting over the induced
states of the inbound predecessors; raises (`Except.error`) on an
unexpected join expression. -/
def get_join_logical_state (env : Env) (wfs : WfSpec) (wf_ex : WfEx)
    (fuel : Nat) (task_spec : TaskSpec) :
    Except String (TaskState × Option JoinInfo) :=
  let join_expr := task_spec.get_join
  let in_task_specs := wfs.find_inbound_task_specs task_spec
  if in_task_specs.isEmpty then
    Except.ok (RUNNING, none)
  else
    let induced_states := induced_join_states env wfs wf_ex fuel task_spec
    let error_count := state_count induced_states ERROR
    let running_count := state_count induced_states RUNNING
    let total_count := induced_states.length
    match join_expr with
    | some (.int n) => join_quorum_state induced_states n
    | some .one => join_quorum_state induced_states 1
    | some .all =>
      if total_count == running_count then
        Except.ok (RUNNING, none)
      else if error_count > 0 then
        Except.ok (ERROR, some (JoinInfo.failed (names_in_state induced_states ERROR)))
      else
        Except.ok (WAITING, some (JoinInfo.blocked (names_in_state induced_states WAITING)))
    | _ => Except.error "Unexpected join expression"

/-- Result of `get_logical_task_state`: a state with optional info, where the
info is either the raw `state_info` text passed through for non-join tasks,
or a join message. -/
inductive LogicalInfo where
  | raw (s : Option String)
  | joinInfo (i : Option JoinInfo)
  deriving DecidableEq, Repr

/-- `get_logical_task_state(task_ex)`: pass-through for non-join tasks, join
accounting otherwise. -/
def get_logical_task_state (env : Env) (wfs : WfSpec) (wf_ex : WfEx)
    (fuel : Nat) (task_ex : TaskEx) :
    Except String (TaskState × LogicalInfo) :=
  match wfs.get_task task_ex.name with
  | none => Except.error "Task spec not found"
  | some task_spec =>
    if !joinTruthy task_spec.get_join then
      Except.ok (task_ex.state, LogicalInfo.raw task_ex.state_info)
    else
      match get_join_logical_state env wfs wf_ex fuel task_spec with
      | Except.ok (s, i) => Except.ok (s, LogicalInfo.joinInfo i)
      | Except.error e => Except.error e

/-- `all_errors_handled()`: false iff some ERROR task execution's on-error
clause yields no matching targets under its outbound context. -/
def all_errors_handled (env : Env) (wfs : WfSpec) (wf_ex : WfEx) : Bool :=
  (find_error_task_executions wf_ex).all (fun t_ex =>
    !(find_next_tasks_for_clause env (wfs.get_on_error_clause t_ex.name)
        (env.outbound_context t_ex)).isEmpty)

/-- Modelled from the spec: `commands.RESERVED_CMDS` — the reserved engine
command names (e.g. "succeed"/"fail") that are valid transition targets
without a task spec of their own. -/
def RESERVED_CMDS : List String := ["noop", "fail", "succeed", "pause"]

/-- Kind of command produced by the command factory: run a real task, or a
reserved engine command. -/
inductive CmdKind where
  | runTask
  | reserved (name : String)
  deriving DecidableEq, Repr

/-- A workflow command (`commands.create_command` result): target name,
resolved task spec (the source task's own spec when the target is a
reserved command), the source task's outbound context, evaluated params,
and the join configuration (`unique_key`, `wait`). -/
structure Command where
  kind : CmdKind
  target : String
  task_spec : Option TaskSpec
  ctx : Ctx
  params : Params
  unique_key : Option String
  wait : Bool

/-- Modelled from the spec: `commands.create_command` — dispatches on whether
the target name is a reserved engine command; join configuration is applied
afterwards by `_configure_if_join`. -/
def create_command (t_n : String) (t_s : Option TaskSpec) (ctx : Ctx)
    (params : Params) : Command :=
  { kind := if t_n ∈ RESERVED_CMDS then CmdKind.reserved t_n else CmdKind.runTask
    target := t_n
    task_spec := t_s
    ctx := ctx
    params := params
    unique_key := none
    wait := false }

/-- `_get_join_unique_key(cmd)`. -/
def get_join_unique_key (wf_ex : WfEx) (cmd : Command) : String :=
  "join-task-" ++ wf_ex.id ++ "-" ++
    (match cmd.task_spec with
     | some t_s => t_s.get_name
     | none => "")

/-- `_configure_if_join(cmd)`: for a RunTask command whose spec is a join,
set the deterministic `unique_key` and mark it waiting. -/
def configure_if_join (wf_ex : WfEx) (cmd : Command) : Command :=
  if cmd.kind != CmdKind.runTask then cmd
  else if !joinTruthy (cmd.task_spec.bind TaskSpec.get_join) then cmd
  else
    { cmd with
      unique_key := some (get_join_unique_key wf_ex cmd)
      wait := true }

/-- The per-pair body of the loop in `_find_next_commands_for_task`: resolve
one (target name, params) pair to a command, raising `WorkflowException`
(`Except.error`) when the target maps to no task spec and is not a reserved
engine command, and substituting the source task's own spec when it is. -/
def resolve_next_command (env : Env) (wfs : WfSpec) (wf_ex : WfEx)
    (task_ex : TaskEx) (pair : String × Params) : Except String Command :=
  let t_n := pair.1
  let t_s := wfs.get_task t_n
  if t_s.isNone && t_n ∉ RESERVED_CMDS then
    Except.error ("Task " ++ t_n ++ " not found.")
  else
    let t_s := if t_s.isNone then wfs.get_task task_ex.name else t_s
    let cmd := create_command t_n t_s (env.outbound_context task_ex) pair.2
    Except.ok (configure_if_join wf_ex cmd)

/-- The accumulation loop pattern shared by `_find_next_commands_for_task`
and `_find_next_commands`: apply a fallible step to each element in order,
collecting results; an exception raised mid-loop propagates (discarding the
partial list, exactly as a Python `raise` discards the local `cmds`). -/
def collectE (f : α → Except String β) : List α → Except String (List β)
  | [] => Except.ok []
  | x :: xs =>
    match f x with
    | Except.error e => Except.error e
    | Except.ok y =>
      match collectE f xs with
      | Except.error e => Except.error e
      | Except.ok ys => Except.ok (y :: ys)

/-- `_find_next_commands_for_task(task_ex)`: resolve every
(target, params) pair of `_find_next_tasks` to a command in order; the
first undefined non-reserved target aborts with a `WorkflowException`. -/
def find_next_commands_for_task (env : Env) (wfs : WfSpec) (wf_ex : WfEx)
    (task_ex : TaskEx) : Except String (List Command) :=
  collectE (resolve_next_command env wfs wf_ex task_ex)
    (find_next_tasks env wfs task_ex)

/-- `_find_start_commands()`: one RunTask per spec with no inbound edges,
with its inbound context. -/
def find_start_commands (env : Env) (wfs : WfSpec) (_wf_ex : WfEx) :
    List Command :=
  wfs.find_start_tasks.map (fun t_s =>
    { kind := CmdKind.runTask
      target := t_s.name
      task_spec := some t_s
      ctx := env.inbound_context t_s
      params := []
      unique_key := none
      wait := false })

/-- `_find_next_commands(task_ex?)`: start commands on an empty execution;
otherwise the concatenation of the per-task commands of the given task, or
of every completed-and-unprocessed task. The base class contributes no
commands (modelled from the spec, which assigns all command production to
this controller). -/
def find_next_commands (env : Env) (wfs : WfSpec) (wf_ex : WfEx)
    (task_ex : Option TaskEx) : Except String (List Command) :=
  if wf_ex.task_executions.isEmpty then
    Except.ok (find_start_commands env wfs wf_ex)
  else
    let task_execs :=
      match task_ex with
      | some t_ex => [t_ex]
      | none =>
        wf_ex.task_executions.filter (fun t_ex =>
          is_completed t_ex.state && !t_ex.processed)
    match collectE (find_next_commands_for_task env wfs wf_ex) task_execs with
    | Except.error e => Except.error e
    | Except.ok cmdss => Except.ok cmdss.flatten

/-! ### Concrete fixtures used by witnesses and counterexamples -/

/-- A trivial environment: every condition holds, parameters and contexts
are passed through unchanged / empty. -/
def envT : Env :=
  { evaluate := fun _ _ => true
    evaluate_recursively := fun p _ => p
    outbound_context := fun _ => []
    inbound_context := fun _ => [] }

/-- Unconditional clause entry targeting `t`. -/
def ce (t : String) : ClauseEntry := ⟨t, none, []⟩

def tsA : TaskSpec := ⟨"A", none, [], [ce "B", ce "C"], []⟩

def tsB : TaskSpec := ⟨"B", none, [], [ce "D"], []⟩

def tsC : TaskSpec := ⟨"C", none, [], [ce "D"], []⟩

/-- Join task `D` over predecessors `B` and `C`, requirement `all`. -/
def tsD : TaskSpec := ⟨"D", some JoinVal.all, [], [], []⟩

/-- Diamond workflow A → {B, C} → D(join: all). -/
def wfsT : WfSpec := ⟨[tsA, tsB, tsC, tsD]⟩

def exA : TaskEx := ⟨"A", TaskState.SUCCESS, none, true⟩

def exB : TaskEx := ⟨"B", TaskState.SUCCESS, none, false⟩

def exC1 : TaskEx := ⟨"C", TaskState.RUNNING, none, false⟩

def exC2 : TaskEx := ⟨"C", TaskState.ERROR, none, false⟩

/-- Snapshot: A succeeded, B succeeded, C still running. -/
def wfex1 : WfEx := ⟨"wf1", [exA, exB, exC1]⟩

/-- Snapshot: A succeeded, B succeeded, C failed (no on-error route). -/
def wfex2 : WfEx := ⟨"wf1", [exA, exB, exC2]⟩

/-- A join task with an unexpected join-requirement value and no inbound
predecessors. -/
def tsZ : TaskSpec := ⟨"Z", some (JoinVal.other "foo"), [], [], []⟩

def wfsZ : WfSpec := ⟨[tsZ]⟩

def texZ : TaskEx := ⟨"Z", TaskState.IDLE, none, false⟩

/-- Join task `E` over predecessors `B` and `C`, requirement `Count(2)`. -/
def tsE : TaskSpec := ⟨"E", some (JoinVal.int 2), [], [], []⟩

def tsB2 : TaskSpec := ⟨"B2", none, [], [ce "E"], []⟩

def tsC2 : TaskSpec := ⟨"C2", none, [], [ce "E"], []⟩

def wfsE : WfSpec := ⟨[tsB2, tsC2, tsE]⟩

/-- `W` names `X` only in its on-error clause, so a successful `W` does not
route to `X`. -/
def tsW : TaskSpec := ⟨"W", none, [], [], [ce "X"]⟩

def tsX : TaskSpec := ⟨"X", none, [], [ce "Y"], []⟩

def tsY : TaskSpec := ⟨"Y", none, [], [], []⟩

/-- Chain W → X → Y where the only transition into X is W's on-error. -/
def wfsR : WfSpec := ⟨[tsW, tsX, tsY]⟩

/-- Snapshot: W succeeded, so X is provably unreachable, and so is Y. -/
def wfexR : WfEx := ⟨"wr", [⟨"W", TaskState.SUCCESS, none, false⟩]⟩

def tsU : TaskSpec := ⟨"U", none, [], [ce "V"], []⟩

/-- Join task `V` with an unexpected join-requirement value and one inbound
predecessor `U`. -/
def tsV : TaskSpec := ⟨"V", some (JoinVal.other "bar"), [], [], []⟩

def wfsV : WfSpec := ⟨[tsU, tsV]⟩

/-! ### Helper lemmas -/

theorem logical_state_of_join (env : Env) (wfs : WfSpec) (wf_ex : WfEx)
    (fuel : Nat) (task_ex : TaskEx) (ts : TaskSpec)
    (hspec : wfs.get_task task_ex.name = some ts)
    (htruthy : joinTruthy ts.get_join = true) :
    get_logical_task_state env wfs wf_ex fuel task_ex =
      match get_join_logical_state env wfs wf_ex fuel ts with
      | Except.ok (s, i) => Except.ok (s, LogicalInfo.joinInfo i)
      | Except.error e => Except.error e := by
  unfold get_logical_task_state
  rw [hspec]
  simp [htruthy]

theorem join_all_state_eq (env : Env) (wfs : WfSpec) (wf_ex : WfEx)
    (fuel : Nat) (ts : TaskSpec)
    (hjoin : ts.get_join = some JoinVal.all)
    (hne : wfs.find_inbound_task_specs ts ≠ []) :
    get_join_logical_state env wfs wf_ex fuel ts =
      (if (induced_join_states env wfs wf_ex fuel ts).length ==
          state_count (induced_join_states env wfs wf_ex fuel ts) RUNNING then
        Except.ok (RUNNING, none)
      else if state_count (induced_join_states env wfs wf_ex fuel ts) ERROR > 0 then
        Except.ok (ERROR, some (JoinInfo.failed
          (names_in_state (induced_join_states env wfs wf_ex fuel ts) ERROR)))
      else
        Except.ok (WAITING, some (JoinInfo.blocked
          (names_in_state (induced_join_states env wfs wf_ex fuel ts) WAITING)))) := by
  unfold get_join_logical_state
  rw [hjoin]
  simp [List.isEmpty_iff, hne]

theorem join_quorum_state_eq (env : Env) (wfs : WfSpec) (wf_ex : WfEx)
    (fuel : Nat) (ts : TaskSpec) (card : Int)
    (hjoin : ts.get_join = some (JoinVal.int card) ∨
      (ts.get_join = some JoinVal.one ∧ card = 1))
    (hne : wfs.find_inbound_task_specs ts ≠ []) :
    get_join_logical_state env wfs wf_ex fuel ts =
      join_quorum_state (induced_join_states env wfs wf_ex fuel ts) card := by
  unfold get_join_logical_state
  rcases hjoin with h | ⟨h, hcard⟩
  · rw [h]
    simp [List.isEmpty_iff, hne]
  · rw [h, hcard]
    simp [List.isEmpty_iff, hne]

theorem state_count_eq_length_iff (l : List (String × TaskState)) (s : TaskState) :
    state_count l s = l.length ↔ ∀ p ∈ l, p.2 = s := by
  unfold state_count
  rw [List.filter_length_eq_length]
  simp

theorem state_count_pos_iff (l : List (String × TaskState)) (s : TaskState) :
    0 < state_count l s ↔ ∃ p ∈ l, p.2 = s := by
  unfold state_count
  rw [List.length_pos]
  constructor
  · intro h
    obtain ⟨p, hp⟩ := List.exists_mem_of_ne_nil _ h
    exact ⟨p, (List.mem_filter.mp hp).1, by
      simpa using (List.mem_filter.mp hp).2⟩
  · rintro ⟨p, hmem, hs⟩
    intro hnil
    have : p ∈ List.filter (fun s_1 => s_1.2 == s) l :=
      List.mem_filter.mpr ⟨hmem, by simp [hs]⟩
    rw [hnil] at this
    simp at this

theorem state_count_add_le (l : List (String × TaskState)) {s1 s2 : TaskState}
    (h : s1 ≠ s2) : state_count l s1 + state_count l s2 ≤ l.length := by
  induction l with
  | nil => simp [state_count]
  | cons hd tl ih =>
    unfold state_count at ih ⊢
    have hsymm : ¬s2 = s1 := fun hs => h hs.symm
    by_cases h1 : hd.2 = s1
    · simp only [List.filter_cons, beq_iff_eq, List.length_cons]
      simp [h1, h]
      omega
    · by_cases h2 : hd.2 = s2
      · simp only [List.filter_cons, beq_iff_eq, List.length_cons]
        simp [h1, h2, hsymm]
        omega
      · simp only [List.filter_cons, beq_iff_eq, List.length_cons]
        simp [h1, h2]
        omega

/-! ### Claims -/

/-- C1: for a join task whose requirement is `All` with a non-empty set of
inbound predecessors, the logical state returned by
`get_logical_task_state` is RUNNING iff every predecessor's induced state
is RUNNING, ERROR iff at least one predecessor's induced state is ERROR,
and otherwise WAITING. -/
theorem join_all_logical_state (env : Env) (wfs : WfSpec) (wf_ex : WfEx)
    (fuel : Nat) (task_ex : TaskEx) (ts : TaskSpec)
    (hspec : wfs.get_task task_ex.name = some ts)
    (hjoin : ts.get_join = some JoinVal.all)
    (hne : wfs.find_inbound_task_specs ts ≠ []) :
    ((∃ i, get_logical_task_state env wfs wf_ex fuel task_ex =
        Except.ok (RUNNING, i)) ↔
      ∀ p ∈ induced_join_states env wfs wf_ex fuel ts, p.2 = RUNNING) ∧
    ((∃ i, get_logical_task_state env wfs wf_ex fuel task_ex =
        Except.ok (ERROR, i)) ↔
      ∃ p ∈ induced_join_states env wfs wf_ex fuel ts, p.2 = ERROR) ∧
    ((¬ ∀ p ∈ induced_join_states env wfs wf_ex fuel ts, p.2 = RUNNING) →
     (¬ ∃ p ∈ induced_join_states env wfs wf_ex fuel ts, p.2 = ERROR) →
      ∃ i, get_logical_task_state env wfs wf_ex fuel task_ex =
        Except.ok (WAITING, i)) := by
  have hj := logical_state_of_join env wfs wf_ex fuel task_ex ts hspec
    (by rw [hjoin]; rfl)
  rw [join_all_state_eq env wfs wf_ex fuel ts hjoin hne] at hj
  by_cases hall : ∀ p ∈ induced_join_states env wfs wf_ex fuel ts, p.2 = RUNNING
  · have hlen : ((induced_join_states env wfs wf_ex fuel ts).length ==
        state_count (induced_join_states env wfs wf_ex fuel ts) RUNNING) = true := by
      simp [eq_comm.mp ((state_count_eq_length_iff _ _).mpr hall)]
    rw [if_pos hlen] at hj
    have hnoerr : ¬ ∃ p ∈ induced_join_states env wfs wf_ex fuel ts, p.2 = ERROR := by
      rintro ⟨p, hmem, hperr⟩
      have := hall p hmem
      rw [hperr] at this
      exact absurd this (by decide)
    refine ⟨⟨fun _ => hall, fun _ => ⟨_, hj⟩⟩, ⟨?_, fun h => absurd h hnoerr⟩, ?_⟩
    · rintro ⟨i, hi⟩
      rw [hj] at hi
      exact absurd (Except.ok.inj hi) (by simp)
    · intro h _
      exact absurd hall h
  · have hlen : ((induced_join_states env wfs wf_ex fuel ts).length ==
        state_count (induced_join_states env wfs wf_ex fuel ts) RUNNING) = false := by
      rw [beq_eq_false_iff_ne]
      intro hl
      exact hall ((state_count_eq_length_iff _ _).mp hl.symm)
    rw [if_neg (by simp [hlen])] at hj
    by_cases herr : ∃ p ∈ induced_join_states env wfs wf_ex fuel ts, p.2 = ERROR
    · have hpos : state_count (induced_join_states env wfs wf_ex fuel ts) ERROR > 0 :=
        (state_count_pos_iff _ _).mpr herr
      rw [if_pos hpos] at hj
      refine ⟨⟨?_, fun h => absurd h hall⟩, ⟨fun _ => herr, fun _ => ⟨_, hj⟩⟩,
        fun _ h => absurd herr h⟩
      rintro ⟨i, hi⟩
      rw [hj] at hi
      exact absurd (Except.ok.inj hi) (by simp)
    · have hpos : ¬ state_count (induced_join_states env wfs wf_ex fuel ts) ERROR > 0 := by
        intro hp
        exact herr ((state_count_pos_iff _ _).mp hp)
      rw [if_neg hpos] at hj
      refine ⟨⟨?_, fun h => absurd h hall⟩, ⟨?_, fun h => absurd h herr⟩,
        fun _ _ => ⟨_, hj⟩⟩
      · rintro ⟨i, hi⟩
        rw [hj] at hi
        exact absurd (Except.ok.inj hi) (by simp)
      · rintro ⟨i, hi⟩
        rw [hj] at hi
        exact absurd (Except.ok.inj hi) (by simp)

/-- Witness for C1 on the diamond fixture: with B RUNNING-inducing and C
WAITING-inducing, D's logical state is not RUNNING and not ERROR, hence
WAITING. -/
theorem join_all_logical_state_witness :
    ∃ i, get_logical_task_state envT wfsT wfex1 10 ⟨"D", IDLE, none, false⟩ =
      Except.ok (WAITING, i) :=
  (join_all_logical_state envT wfsT wfex1 10 ⟨"D", IDLE, none, false⟩ tsD
    rfl rfl (by decide)).2.2
    (by decide) (by decide)

/-- C2: for a join task whose requirement is `Count(n)` or `Any`
(cardinality 1) with a non-empty set of inbound predecessors, the logical
state is RUNNING when `running_count ≥ cardinality`; ERROR when
`error_count > total_count - cardinality`; and otherwise WAITING with
state_info listing exactly the names of the predecessors whose induced
state is WAITING. -/
theorem join_quorum_logical_state (env : Env) (wfs : WfSpec) (wf_ex : WfEx)
    (fuel : Nat) (ts : TaskSpec) (card : Int)
    (hjoin : ts.get_join = some (JoinVal.int card) ∨
      (ts.get_join = some JoinVal.one ∧ card = 1))
    (hne : wfs.find_inbound_task_specs ts ≠ []) :
    ((state_count (induced_join_states env wfs wf_ex fuel ts) RUNNING : Int) ≥ card →
      get_join_logical_state env wfs wf_ex fuel ts = Except.ok (RUNNING, none)) ∧
    ((state_count (induced_join_states env wfs wf_ex fuel ts) ERROR : Int) >
        ((induced_join_states env wfs wf_ex fuel ts).length : Int) - card →
      get_join_logical_state env wfs wf_ex fuel ts =
        Except.ok (ERROR, some (JoinInfo.failed
          (names_in_state (induced_join_states env wfs wf_ex fuel ts) ERROR)))) ∧
    ((state_count (induced_join_states env wfs wf_ex fuel ts) RUNNING : Int) < card →
     (state_count (induced_join_states env wfs wf_ex fuel ts) ERROR : Int) ≤
        ((induced_join_states env wfs wf_ex fuel ts).length : Int) - card →
      get_join_logical_state env wfs wf_ex fuel ts =
        Except.ok (WAITING, some (JoinInfo.blocked
          (names_in_state (induced_join_states env wfs wf_ex fuel ts) WAITING)))) := by
  rw [join_quorum_state_eq env wfs wf_ex fuel ts card hjoin hne]
  unfold join_quorum_state
  have hle := @state_count_add_le (induced_join_states env wfs wf_ex fuel ts)
    RUNNING ERROR (by decide)
  refine ⟨fun h => ?_, fun h => ?_, fun h1 h2 => ?_⟩
  · rw [if_pos h]
  · have h1 : ¬ ((state_count (induced_join_states env wfs wf_ex fuel ts) RUNNING : Int) ≥ card) := by
      omega
    rw [if_neg h1, if_pos h]
  · rw [if_neg (by omega), if_neg (by omega)]

/-- Witness for C2 on the `Count(2)` fixture with both predecessors pending:
the join is WAITING, blocked by both predecessor names. -/
theorem join_quorum_logical_state_witness :
    get_join_logical_state envT wfsE ⟨"wfE", []⟩ 10 tsE =
      Except.ok (WAITING, some (JoinInfo.blocked ["B2", "C2"])) :=
  (join_quorum_logical_state envT wfsE ⟨"wfE", []⟩ 10 tsE 2
    (Or.inl rfl) (by decide)).2.2 (by decide) (by decide)

/-- C3: for an inbound predecessor spec of a join task, the induced state is
WAITING if no execution exists and `possible_route` holds, ERROR if no
execution exists and `possible_route` fails, WAITING if an execution exists
but is not completed, ERROR if it is completed but the join task's name is
not among its resolved next-task names, and RUNNING otherwise. -/
theorem induced_join_state_cases (env : Env) (wfs : WfSpec) (wf_ex : WfEx)
    (fuel : Nat) (inb join_ts : TaskSpec) :
    (find_task_execution_by_spec wf_ex inb = none →
      possible_route env wfs wf_ex fuel inb = true →
      get_induced_join_state env wfs wf_ex fuel inb join_ts = WAITING) ∧
    (find_task_execution_by_spec wf_ex inb = none →
      possible_route env wfs wf_ex fuel inb = false →
      get_induced_join_state env wfs wf_ex fuel inb join_ts = ERROR) ∧
    (∀ t_ex, find_task_execution_by_spec wf_ex inb = some t_ex →
      is_completed t_ex.state = false →
      get_induced_join_state env wfs wf_ex fuel inb join_ts = WAITING) ∧
    (∀ t_ex, find_task_execution_by_spec wf_ex inb = some t_ex →
      is_completed t_ex.state = true →
      join_ts.name ∉ find_next_task_names env wfs t_ex →
      get_induced_join_state env wfs wf_ex fuel inb join_ts = ERROR) ∧
    (∀ t_ex, find_task_execution_by_spec wf_ex inb = some t_ex →
      is_completed t_ex.state = true →
      join_ts.name ∈ find_next_task_names env wfs t_ex →
      get_induced_join_state env wfs wf_ex fuel inb join_ts = RUNNING) := by
  unfold get_induced_join_state
  refine ⟨fun hn hr => ?_, fun hn hr => ?_, fun t hx hc => ?_,
    fun t hx hc hm => ?_, fun t hx hc hm => ?_⟩
  · simp [hn, hr]
  · simp [hn, hr]
  · simp [hx, hc]
  · simp [hx, hc, hm]
  · simp [hx, hc, hm]

/-- Witness for C3 on the diamond fixture with an empty execution: B has no
execution and is reachable, so its induced state toward D is WAITING. -/
theorem induced_join_state_cases_witness :
    get_induced_join_state envT wfsT ⟨"w", []⟩ 10 tsB tsD = WAITING :=
  (induced_join_state_cases envT wfsT ⟨"w", []⟩ 10 tsB tsD).1 rfl (by decide)

/-- C4: `possible_route` is true for a spec with zero inbound edges; for a
spec with inbound edges it is true iff some inbound predecessor either has
no execution and is itself reachable, or has an execution that is not
completed or whose resolved next-task names include the descendant's name;
in particular, if every predecessor is unreachable so is the descendant. -/
theorem possible_route_characterization (env : Env) (wfs : WfSpec)
    (wf_ex : WfEx) (fuel : Nat) (ts : TaskSpec) :
    (wfs.find_inbound_task_specs ts = [] →
      possible_route env wfs wf_ex (fuel + 1) ts = true) ∧
    (wfs.find_inbound_task_specs ts ≠ [] →
      (possible_route env wfs wf_ex (fuel + 1) ts = true ↔
        ∃ t_s ∈ wfs.find_inbound_task_specs ts,
          match find_task_execution_by_spec wf_ex t_s with
          | none => possible_route env wfs wf_ex fuel t_s = true
          | some t_ex => is_completed t_ex.state = false ∨
              ts.name ∈ find_next_task_names env wfs t_ex)) ∧
    (wfs.find_inbound_task_specs ts ≠ [] →
      (∀ t_s ∈ wfs.find_inbound_task_specs ts,
        find_task_execution_by_spec wf_ex t_s = none ∧
          possible_route env wfs wf_ex fuel t_s = false) →
      possible_route env wfs wf_ex (fuel + 1) ts = false) := by
  have hunfold : possible_route env wfs wf_ex (fuel + 1) ts =
      (if (wfs.find_inbound_task_specs ts).isEmpty then true
       else (wfs.find_inbound_task_specs ts).any (fun t_s =>
         match find_task_execution_by_spec wf_ex t_s with
         | none => possible_route env wfs wf_ex fuel t_s
         | some t_ex => !is_completed t_ex.state ||
             ts.name ∈ find_next_task_names env wfs t_ex)) := rfl
  refine ⟨fun h => ?_, fun h => ?_, fun h hall => ?_⟩
  · rw [hunfold]
    simp [h]
  · rw [hunfold, if_neg (by simp [List.isEmpty_iff, h])]
    rw [List.any_eq_true]
    apply exists_congr
    intro t_s
    apply and_congr_right
    intro _
    cases hx : find_task_execution_by_spec wf_ex t_s with
    | none => exact Iff.rfl
    | some t_ex =>
      simp only [Bool.or_eq_true, Bool.not_eq_true', decide_eq_true_eq]
  · rw [hunfold, if_neg (by simp [List.isEmpty_iff, h])]
    rw [List.any_eq_false]
    intro t_s hmem
    obtain ⟨hx, hr⟩ := hall t_s hmem
    rw [hx]
    simp [hr]

/-- Witness for C4 on the chain fixture: both predecessors of Y are
unreachable (X has no execution and no possible route), so Y is
unreachable. -/
theorem possible_route_characterization_witness :
    possible_route envT wfsR wfexR 2 tsY = false :=
  (possible_route_characterization envT wfsR wfexR 1 tsY).2.2
    (by decide) (by decide)

theorem collectE_error_of_mem {α β : Type} {f : α → Except String β}
    {l : List α} {x : α} (hmem : x ∈ l) (hx : ∃ e, f x = Except.error e) :
    ∃ e, collectE f l = Except.error e := by
  induction l with
  | nil => cases hmem
  | cons hd tl ih =>
    unfold collectE
    cases hh : f hd with
    | error e => exact ⟨e, rfl⟩
    | ok y =>
      rcases List.mem_cons.mp hmem with heq | htl
      · obtain ⟨e, he⟩ := hx
        rw [heq, hh] at he
        cases he
      · obtain ⟨e, he⟩ := ih htl
        rw [he]
        exact ⟨e, rfl⟩

theorem configure_if_join_fields (wf_ex : WfEx) (cmd : Command) :
    (configure_if_join wf_ex cmd).task_spec = cmd.task_spec ∧
    (configure_if_join wf_ex cmd).kind = cmd.kind ∧
    (configure_if_join wf_ex cmd).target = cmd.target := by
  unfold configure_if_join
  split
  · exact ⟨rfl, rfl, rfl⟩
  · split
    · exact ⟨rfl, rfl, rfl⟩
    · exact ⟨rfl, rfl, rfl⟩

/-- C5: during next-command resolution, a resolved target name that maps to
no TaskSpec raises a WorkflowException when it is not a reserved engine
command; when it is reserved, the source task's own spec is substituted
into the produced command. -/
theorem undefined_or_reserved_target (env : Env) (wfs : WfSpec)
    (wf_ex : WfEx) (task_ex : TaskEx) (t_n : String)
    (hnone : wfs.get_task t_n = none) :
    (t_n ∉ RESERVED_CMDS →
      ∀ p, (t_n, p) ∈ find_next_tasks env wfs task_ex →
        ∃ e, find_next_commands_for_task env wfs wf_ex task_ex =
          Except.error e) ∧
    (t_n ∈ RESERVED_CMDS →
      ∀ p, ∃ cmd,
        resolve_next_command env wfs wf_ex task_ex (t_n, p) = Except.ok cmd ∧
        cmd.task_spec = wfs.get_task task_ex.name) := by
  constructor
  · intro hres p hmem
    apply collectE_error_of_mem hmem
    refine ⟨"Task " ++ t_n ++ " not found.", ?_⟩
    unfold resolve_next_command
    simp [hnone, hres]
  · intro hres p
    unfold resolve_next_command
    simp only [hnone, Option.isNone_none, Bool.true_and]
    rw [if_neg (by simp [hres])]
    refine ⟨_, rfl, ?_⟩
    rw [(configure_if_join_fields wf_ex _).1]
    rfl

/-- Witness for C5: "fail" is a reserved command with no TaskSpec in the
diamond fixture, so resolving it from B substitutes B's own spec. -/
theorem undefined_or_reserved_target_witness :
    ∃ cmd,
      resolve_next_command envT wfsT wfex1 exB ("fail", []) = Except.ok cmd ∧
      cmd.task_spec = wfsT.get_task exB.name :=
  (undefined_or_reserved_target envT wfsT wfex1 exB "fail" rfl).2 (by decide) []

/-- C6 counterexample: the claim says every join task with an unrecognized
join-requirement value raises during logical-state computation, but a join
task with such a value and zero inbound predecessors short-circuits to an
ordinary RUNNING return. -/
theorem unexpected_join_no_raise_counterexample :
    tsZ.get_join = some (JoinVal.other "foo") ∧
    joinTruthy tsZ.get_join = true ∧
    wfsZ.get_task "Z" = some tsZ ∧
    wfsZ.find_inbound_task_specs tsZ = [] ∧
    get_logical_task_state envT wfsZ ⟨"wf2", [texZ]⟩ 10 texZ =
      Except.ok (RUNNING, LogicalInfo.joinInfo none) :=
  ⟨rfl, rfl, rfl, rfl, rfl⟩

/-- C6 (amended): for a join task with a non-empty set of inbound
predecessors whose join-requirement value is neither an integer, nor
"one", nor "all", computing the logical state raises an exception rather
than returning a state; whereas a join that can never reach quorum is
reported as an ordinary ERROR return value, never an exception. -/
theorem unexpected_join_raises (env : Env) (wfs : WfSpec) (wf_ex : WfEx)
    (fuel : Nat) (ts : TaskSpec) (s : String)
    (hjoin : ts.get_join = some (JoinVal.other s))
    (hne : wfs.find_inbound_task_specs ts ≠ []) :
    (∃ e, get_join_logical_state env wfs wf_ex fuel ts = Except.error e) ∧
    (∀ ts' card,
      ts'.get_join = some (JoinVal.int card) →
      wfs.find_inbound_task_specs ts' ≠ [] →
      (state_count (induced_join_states env wfs wf_ex fuel ts') ERROR : Int) >
        ((induced_join_states env wfs wf_ex fuel ts').length : Int) - card →
      ∃ info, get_join_logical_state env wfs wf_ex fuel ts' =
        Except.ok (ERROR, info)) := by
  constructor
  · refine ⟨"Unexpected join expression", ?_⟩
    unfold get_join_logical_state
    rw [hjoin]
    simp [List.isEmpty_iff, hne]
  · intro ts' card hjoin' hne' herr
    rw [join_quorum_state_eq env wfs wf_ex fuel ts' card (Or.inl hjoin') hne']
    unfold join_quorum_state
    have hle := @state_count_add_le (induced_join_states env wfs wf_ex fuel ts')
      RUNNING ERROR (by decide)
    rw [if_neg (by omega), if_pos herr]
    exact ⟨_, rfl⟩

/-- Witness for C6 (amended): the join task `V` has an unexpected join value
and a real predecessor, so its logical-state computation raises. -/
theorem unexpected_join_raises_witness :
    ∃ e, get_join_logical_state envT wfsV ⟨"wv", []⟩ 10 tsV =
      Except.error e :=
  (unexpected_join_raises envT wfsV ⟨"wv", []⟩ 10 tsV "bar" rfl (by decide)).1

theorem collectE_ok_mem {α β : Type} {f : α → Except String β} :
    ∀ {l : List α} {ys : List β}, collectE f l = Except.ok ys →
      ∀ y ∈ ys, ∃ x ∈ l, f x = Except.ok y := by
  intro l
  induction l with
  | nil =>
    intro ys h y hy
    unfold collectE at h
    cases h
    cases hy
  | cons hd tl ih =>
    intro ys h y hy
    unfold collectE at h
    cases hh : f hd with
    | error e =>
      rw [hh] at h
      cases h
    | ok z =>
      rw [hh] at h
      cases ht : collectE f tl with
      | error e =>
        rw [ht] at h
        cases h
      | ok zs =>
        rw [ht] at h
        cases h
        rcases List.mem_cons.mp hy with rfl | hmem
        · exact ⟨hd, List.mem_cons_self _ _, hh⟩
        · obtain ⟨x, hx, hfx⟩ := ih ht y hmem
          exact ⟨x, List.mem_cons_of_mem _ hx, hfx⟩

theorem configure_if_join_wait_unique (wf_ex : WfEx) (c : Command)
    (h0 : c.wait = false) (hw : (configure_if_join wf_ex c).wait = true) :
    (configure_if_join wf_ex c).unique_key =
      some (get_join_unique_key wf_ex c) ∧
    (configure_if_join wf_ex c).task_spec = c.task_spec := by
  unfold configure_if_join at hw ⊢
  by_cases h1 : (c.kind != CmdKind.runTask) = true
  · rw [if_pos h1] at hw
    rw [h0] at hw
    cases hw
  · rw [if_neg h1] at hw ⊢
    by_cases h2 : (!joinTruthy (c.task_spec.bind fun a => a.get_join)) = true
    · rw [if_pos h2] at hw
      rw [h0] at hw
      cases hw
    · rw [if_neg h2]
      exact ⟨rfl, rfl⟩

theorem resolve_ok_wait_unique (env : Env) (wfs : WfSpec) (wf_ex : WfEx)
    (task_ex : TaskEx) (pair : String × Params) (cmd : Command)
    (h : resolve_next_command env wfs wf_ex task_ex pair = Except.ok cmd)
    (hw : cmd.wait = true) :
    cmd.unique_key = some ("join-task-" ++ wf_ex.id ++ "-" ++
      (match cmd.task_spec with
       | some t_s => t_s.get_name
       | none => "")) := by
  simp only [resolve_next_command] at h
  split at h
  · cases h
  · have hc := Except.ok.inj h
    subst hc
    obtain ⟨hu, hts⟩ := configure_if_join_wait_unique wf_ex _ rfl hw
    rw [hu, hts]
    rfl

theorem start_commands_no_wait (env : Env) (wfs : WfSpec) (wf_ex : WfEx) :
    ∀ cmd ∈ find_start_commands env wfs wf_ex, cmd.wait = false := by
  intro cmd hmem
  unfold find_start_commands at hmem
  obtain ⟨t_s, _, hc⟩ := List.mem_map.mp hmem
  rw [← hc]

/-- C7: `find_next_commands` is deterministic over a snapshot — two
invocations on the same (execution, spec) pair return the same commands —
and every waiting join command's `unique_key` is the fixed function
`join-task-<workflow execution id>-<join task spec name>` of the workflow
execution id and the join task's spec name only. -/
theorem find_next_commands_deterministic (env : Env) (wfs : WfSpec)
    (wf_ex : WfEx) (task_ex : Option TaskEx) :
    find_next_commands env wfs wf_ex task_ex =
      find_next_commands env wfs wf_ex task_ex ∧
    (∀ cmds, find_next_commands env wfs wf_ex task_ex = Except.ok cmds →
      ∀ cmd ∈ cmds, cmd.wait = true →
        cmd.unique_key = some ("join-task-" ++ wf_ex.id ++ "-" ++
          (match cmd.task_spec with
           | some t_s => t_s.get_name
           | none => ""))) := by
  refine ⟨rfl, ?_⟩
  intro cmds hcmds cmd hmem hw
  simp only [find_next_commands] at hcmds
  split at hcmds
  · have hc := Except.ok.inj hcmds
    subst hc
    exact absurd hw (by rw [start_commands_no_wait env wfs wf_ex cmd hmem]; simp)
  · split at hcmds
    · cases hcmds
    · rename_i cmdss hcoll
      have hc := Except.ok.inj hcmds
      subst hc
      obtain ⟨lst, hlst, hcl⟩ := List.mem_flatten.mp hmem
      obtain ⟨t_ex, _, hfor⟩ := collectE_ok_mem hcoll lst hlst
      unfold find_next_commands_for_task at hfor
      obtain ⟨pair, _, hres⟩ := collectE_ok_mem hfor cmd hcl
      exact resolve_ok_wait_unique env wfs wf_ex t_ex pair cmd hres hw

/-- Witness for C7: on the snapshot where B succeeded, the single produced
command targets the join D and carries the fixed unique key. -/
theorem find_next_commands_deterministic_witness :
    ∃ cmds, find_next_commands envT wfsT wfex2 none = Except.ok cmds ∧
      ∀ cmd ∈ cmds, cmd.wait = true →
        cmd.unique_key = some ("join-task-wf1-" ++
          (match cmd.task_spec with
           | some t_s => t_s.get_name
           | none => "")) :=
  ⟨_, rfl, fun cmd hmem hw =>
    (find_next_commands_deterministic envT wfsT wfex2 none).2 _ rfl
      cmd hmem hw⟩

/-- C8: `all_errors_handled` returns false iff some task execution in ERROR
state yields zero matching on-error targets under its outbound context
(including an absent clause), and true iff every ERROR task yields at least
one matching target. -/
theorem all_errors_handled_iff (env : Env) (wfs : WfSpec) (wf_ex : WfEx) :
    (all_errors_handled env wfs wf_ex = false ↔
      ∃ t_ex ∈ wf_ex.task_executions, t_ex.state = ERROR ∧
        find_next_tasks_for_clause env (wfs.get_on_error_clause t_ex.name)
          (env.outbound_context t_ex) = []) ∧
    (all_errors_handled env wfs wf_ex = true ↔
      ∀ t_ex ∈ wf_ex.task_executions, t_ex.state = ERROR →
        find_next_tasks_for_clause env (wfs.get_on_error_clause t_ex.name)
          (env.outbound_context t_ex) ≠ []) := by
  have htrue : all_errors_handled env wfs wf_ex = true ↔
      ∀ t_ex ∈ wf_ex.task_executions, t_ex.state = ERROR →
        find_next_tasks_for_clause env (wfs.get_on_error_clause t_ex.name)
          (env.outbound_context t_ex) ≠ [] := by
    unfold all_errors_handled find_error_task_executions
    rw [List.all_eq_true]
    constructor
    · intro h t hmem herr
      have := h t (List.mem_filter.mpr ⟨hmem, by simp [herr]⟩)
      simpa [List.isEmpty_iff] using this
    · intro h t hmem
      obtain ⟨hm, hs⟩ := List.mem_filter.mp hmem
      have := h t hm (by simpa using hs)
      simpa [List.isEmpty_iff] using this
  refine ⟨?_, htrue⟩
  rw [Bool.eq_false_iff, Ne, htrue]
  push_neg
  simp

/-- Witness for C8: in the snapshot where C failed with no on-error clause,
the workflow has an unhandled error branch. -/
theorem all_errors_handled_iff_witness :
    all_errors_handled envT wfsT wfex2 = false :=
  (all_errors_handled_iff envT wfsT wfex2).1.mpr
    ⟨exC2, by decide, rfl, rfl⟩

/-- C9: a join task whose spec has zero inbound predecessors gets logical
state RUNNING, short-circuiting before quorum accounting or validation of
the join-requirement value — any truthy join value, `Count(n)` or
unrecognized alike, yields RUNNING. -/
theorem join_no_inbound_running (env : Env) (wfs : WfSpec) (wf_ex : WfEx)
    (fuel : Nat) (task_ex : TaskEx) (ts : TaskSpec) (jv : JoinVal)
    (hspec : wfs.get_task task_ex.name = some ts)
    (hjoin : ts.get_join = some jv)
    (htruthy : joinTruthy (some jv) = true)
    (hempty : wfs.find_inbound_task_specs ts = []) :
    get_logical_task_state env wfs wf_ex fuel task_ex =
      Except.ok (RUNNING, LogicalInfo.joinInfo none) ∧
    get_join_logical_state env wfs wf_ex fuel ts =
      Except.ok (RUNNING, none) := by
  have hj : get_join_logical_state env wfs wf_ex fuel ts =
      Except.ok (RUNNING, none) := by
    unfold get_join_logical_state
    simp [hempty]
  refine ⟨?_, hj⟩
  rw [logical_state_of_join env wfs wf_ex fuel task_ex ts hspec
    (hjoin ▸ htruthy)]
  rw [hj]

/-- Witness for C9: the zero-predecessor join `Z` with an unrecognized join
value is reported RUNNING. -/
theorem join_no_inbound_running_witness :
    get_logical_task_state envT wfsZ ⟨"wf9", [texZ]⟩ 10 texZ =
      Except.ok (RUNNING, LogicalInfo.joinInfo none) ∧
    get_join_logical_state envT wfsZ ⟨"wf9", [texZ]⟩ 10 tsZ =
      Except.ok (RUNNING, none) :=
  join_no_inbound_running envT wfsZ ⟨"wf9", [texZ]⟩ 10 texZ tsZ
    (JoinVal.other "foo") rfl rfl rfl rfl

theorem getLast?_cons_ne_nil {α : Type} (a : α) {l : List α} (h : l ≠ []) :
    (a :: l).getLast? = l.getLast? := by
  cases l with
  | nil => exact absurd rfl h
  | cons b t => rfl

theorem any_congr_mem {α : Type} {l : List α} {f g : α → Bool}
    (h : ∀ x ∈ l, f x = g x) : l.any f = l.any g := by
  induction l with
  | nil => rfl
  | cons a t ih =>
    rw [List.any_cons, List.any_cons, h a (List.mem_cons_self _ _),
      ih (fun x hx => h x (List.mem_cons_of_mem _ hx))]

theorem possible_route_congr (env : Env) (wfs : WfSpec)
    {wf_ex1 wf_ex2 : WfEx}
    (h : ∀ ts, find_task_execution_by_spec wf_ex1 ts =
      find_task_execution_by_spec wf_ex2 ts) :
    ∀ fuel ts, possible_route env wfs wf_ex1 fuel ts =
      possible_route env wfs wf_ex2 fuel ts := by
  intro fuel
  induction fuel with
  | zero => intro ts; rfl
  | succ n ih =>
    intro ts
    simp only [possible_route]
    congr 1
    apply any_congr_mem
    intro t_s _
    rw [h t_s]
    cases find_task_execution_by_spec wf_ex2 t_s with
    | none => exact ih t_s
    | some t_ex => rfl

theorem induced_join_state_congr (env : Env) (wfs : WfSpec)
    {wf_ex1 wf_ex2 : WfEx}
    (h : ∀ ts, find_task_execution_by_spec wf_ex1 ts =
      find_task_execution_by_spec wf_ex2 ts)
    (fuel : Nat) (inb j : TaskSpec) :
    get_induced_join_state env wfs wf_ex1 fuel inb j =
      get_induced_join_state env wfs wf_ex2 fuel inb j := by
  unfold get_induced_join_state
  rw [h inb]
  cases find_task_execution_by_spec wf_ex2 inb with
  | none => rw [possible_route_congr env wfs h fuel inb]
  | some t_ex => rfl

/-- C10: when several executions exist for the same inbound spec, induced
join states and `possible_route` consult only the last one in lookup
order — prepending an additional (earlier) execution of an already-present
task name changes no lookup, no induced state and no reachability answer,
whatever that earlier execution's state or transitions. -/
theorem last_execution_only (env : Env) (wfs : WfSpec) (wf_ex : WfEx)
    (e : TaskEx) (h : ∃ x ∈ wf_ex.task_executions, x.name = e.name) :
    (∀ ts, find_task_execution_by_spec ⟨wf_ex.id, e :: wf_ex.task_executions⟩ ts =
      find_task_execution_by_spec wf_ex ts) ∧
    (∀ fuel inb j,
      get_induced_join_state env wfs ⟨wf_ex.id, e :: wf_ex.task_executions⟩ fuel inb j =
        get_induced_join_state env wfs wf_ex fuel inb j) ∧
    (∀ fuel ts,
      possible_route env wfs ⟨wf_ex.id, e :: wf_ex.task_executions⟩ fuel ts =
        possible_route env wfs wf_ex fuel ts) := by
  have h1 : ∀ ts, find_task_execution_by_spec ⟨wf_ex.id, e :: wf_ex.task_executions⟩ ts =
      find_task_execution_by_spec wf_ex ts := by
    intro ts
    unfold find_task_execution_by_spec find_task_executions_by_spec
    show ((e :: wf_ex.task_executions).filter fun x => x.name == ts.name).getLast? = _
    rw [List.filter_cons]
    by_cases hn : (e.name == ts.name) = true
    · rw [if_pos hn]
      obtain ⟨x, hx, hxe⟩ := h
      apply getLast?_cons_ne_nil
      intro hnil
      have hxf : x ∈ wf_ex.task_executions.filter fun y => y.name == ts.name :=
        List.mem_filter.mpr ⟨hx, by rw [hxe]; exact hn⟩
      rw [hnil] at hxf
      cases hxf
    · rw [if_neg hn]
  exact ⟨h1, fun fuel inb j => induced_join_state_congr env wfs h1 fuel inb j,
    fun fuel ts => possible_route_congr env wfs h1 fuel ts⟩

/-- Witness for C10: prepending an earlier ERROR execution of C to the
snapshot where C is RUNNING leaves C's induced state toward the join D
unchanged. -/
theorem last_execution_only_witness :
    get_induced_join_state envT wfsT
      ⟨"wf1", ⟨"C", ERROR, none, false⟩ :: wfex1.task_executions⟩ 10 tsC tsD =
      get_induced_join_state envT wfsT wfex1 10 tsC tsD :=
  (last_execution_only envT wfsT wfex1 ⟨"C", ERROR, none, false⟩
    ⟨exC1, by decide, rfl⟩).2.1 10 tsC tsD

end Mistral
